import Mathlib

/-!
Verification of the whiteboard-animation-automation pipeline.

Shallow embedding of the Python sources:
  - src/config/config.py        (aspect-ratio / quality-preset dimension calculation)
  - src/animation.py            (reveal animation frame assembly, cursor alpha fade)
  - src/animation/path_generator.py (deterministic zig-zag cursor path)
  - src/animation/pan_zoom_animation.py (pan distance computation)
  - src/captions/caption_overlay.py (word segmentation, current-segment lookup, overlay)
  - src/video_writer.py         (audio-mux rollback)

Durations and times are modelled as rationals; Python `int()` on a
nonnegative/negative float is modelled by truncation toward zero (`pyTrunc`).
-/

/-- Python `int(q)`: truncation toward zero. -/
def pyTrunc (q : ℚ) : ℤ := if 0 ≤ q then ⌊q⌋ else ⌈q⌉

theorem pyTrunc_of_nonneg (q : ℚ) (h : 0 ≤ q) : pyTrunc q = ⌊q⌋ := by
  simp [pyTrunc, h]

namespace Config

/-- src/config/config.py ASPECT_RATIOS: preset name -> (ratio_w, ratio_h). -/
def ASPECT_RATIOS : List (String × ℤ × ℤ) :=
  [("16:9", (16, 9)), ("9:16", (9, 16)), ("1:1", (1, 1)), ("4:5", (4, 5)), ("4:3", (4, 3))]

/-- src/config/config.py QUALITY_PRESETS: preset name -> height in pixels. -/
def QUALITY_PRESETS : List (String × ℤ) :=
  [("480p", 480), ("720p", 720), ("1080p", 1080), ("1440p", 1440), ("2160p", 2160)]

/-- src/config/config.py calculate_dimensions (aspect_ratio and quality given
explicitly; invalid keys raise ValueError, modelled by Except.error).
`width = int((ratio_w / ratio_h) * target_height); height = target_height`. -/
def calculate_dimensions (aspect_ratio quality : String) : Except String (ℤ × ℤ) :=
  match ASPECT_RATIOS.lookup aspect_ratio with
  | none => .error "Invalid aspect ratio"
  | some (ratio_w, ratio_h) =>
    match QUALITY_PRESETS.lookup quality with
    | none => .error "Invalid quality"
    | some target_height =>
      .ok (pyTrunc (((ratio_w : ℚ) / (ratio_h : ℚ)) * (target_height : ℚ)), target_height)

/-- src/config/config.py FPS. -/
def FPS : ℤ := 30

/-- src/config/config.py CURSOR_FADE_IN_FRAMES. -/
def CURSOR_FADE_IN_FRAMES : ℤ := 20

/-- src/config/config.py CURSOR_FADE_OUT_FRAMES. -/
def CURSOR_FADE_OUT_FRAMES : ℤ := 20

end Config

/-- C7: the claim as stated is false on the code: for aspect ratio "9:16" and
quality "1080p" the code computes width `int(9/16 * 1080) = int(607.5) = 607`,
while `round(9/16 * 1080) = 608`. -/
theorem c7_round_counterexample :
    Config.calculate_dimensions "9:16" "1080p"
      = .ok (607, 1080) ∧ (607 : ℤ) ≠ round ((9 / 16 : ℚ) * 1080) := by
  constructor
  · show Except.ok (pyTrunc ((9 / 16 : ℚ) * 1080), 1080) = Except.ok ((607 : ℤ), 1080)
    norm_num [pyTrunc]
  · norm_num [round_eq]

/-- C7 (amended): for every valid aspect-ratio key and quality-preset key,
calculate_dimensions returns height equal to the preset's integer height and
width equal to the truncation (Python int, here equal to the floor) of
ratio_w/ratio_h × height, and both returned dimensions are positive. -/
theorem c7_calculate_dimensions (ar q : String) (rw rh h : ℤ)
    (har : (ar, (rw, rh)) ∈ Config.ASPECT_RATIOS)
    (hq : (q, h) ∈ Config.QUALITY_PRESETS) :
    Config.calculate_dimensions ar q
        = .ok (pyTrunc (((rw : ℚ) / (rh : ℚ)) * (h : ℚ)), h)
      ∧ 0 < pyTrunc (((rw : ℚ) / (rh : ℚ)) * (h : ℚ)) ∧ 0 < h := by
  simp only [Config.ASPECT_RATIOS, List.mem_cons, List.not_mem_nil, or_false] at har
  simp only [Config.QUALITY_PRESETS, List.mem_cons, List.not_mem_nil, or_false] at hq
  rcases har with h1 | h1 | h1 | h1 | h1 <;>
    (injection h1 with ha hbc; injection hbc with hb hc;
     subst ha; subst hb; subst hc) <;>
  rcases hq with h2 | h2 | h2 | h2 | h2 <;>
    (injection h2 with hqa hqb; subst hqa; subst hqb) <;>
  exact ⟨rfl, by norm_num [pyTrunc], by norm_num⟩

/-- C7 witness: concrete evaluation at aspect ratio 16:9, quality 720p. -/
theorem c7_calculate_dimensions_witness :
    Config.calculate_dimensions "16:9" "720p" = .ok (1280, 720) := by
  have h := c7_calculate_dimensions "16:9" "720p" 16 9 720 (by decide) (by decide)
  rw [h.1]
  norm_num [pyTrunc]

namespace Animation

/-- src/animation.py _calculate_cursor_alpha: cursor alpha multiplier for the
fade-in/fade-out effect.  Python true division of ints is modelled in ℚ. -/
def calculate_cursor_alpha (frame_idx total_frames : ℤ) : ℚ :=
  if frame_idx < Config.CURSOR_FADE_IN_FRAMES then
    (frame_idx : ℚ) / (Config.CURSOR_FADE_IN_FRAMES : ℚ)
  else if frame_idx > total_frames - Config.CURSOR_FADE_OUT_FRAMES then
    ((total_frames - frame_idx : ℤ) : ℚ) / (Config.CURSOR_FADE_OUT_FRAMES : ℚ)
  else 1

end Animation

/-- C3: the claim as stated is false on the code: with fade constants 20 and a
clip of 100 frames (> 40), the alpha multiplier at the last frame index 99 is
(100 − 99)/20 = 1/20 = 0.05, not 0.0 (the fade-out never reaches zero). -/
theorem c3_counterexample :
    Animation.calculate_cursor_alpha 0 100 = 0
      ∧ Animation.calculate_cursor_alpha 20 100 = 1
      ∧ Animation.calculate_cursor_alpha 99 100 = 1 / 20
      ∧ (1 / 20 : ℚ) ≠ 0 := by
  refine ⟨?_, ?_, ?_, by norm_num⟩ <;>
    norm_num [Animation.calculate_cursor_alpha,
      Config.CURSOR_FADE_IN_FRAMES, Config.CURSOR_FADE_OUT_FRAMES]

/-- C3 (amended): with fade-in and fade-out constants both 20 frames and
total_frames > 40, the cursor alpha multiplier is 0.0 at frame 0, 1.0 at frame
20, and 1/20 (= 0.05, one fade-out step above zero) at the last frame index
total_frames − 1. -/
theorem c3_cursor_alpha_endpoints (total_frames : ℤ) (h : 40 < total_frames) :
    Animation.calculate_cursor_alpha 0 total_frames = 0
      ∧ Animation.calculate_cursor_alpha 20 total_frames = 1
      ∧ Animation.calculate_cursor_alpha (total_frames - 1) total_frames = 1 / 20 := by
  unfold Animation.calculate_cursor_alpha
  unfold Config.CURSOR_FADE_IN_FRAMES Config.CURSOR_FADE_OUT_FRAMES
  refine ⟨by norm_num, ?_, ?_⟩
  · rw [if_neg (by omega), if_neg (by omega)]
  · rw [if_neg (by omega), if_pos (by omega)]
    have h1 : total_frames - (total_frames - 1) = 1 := by omega
    rw [h1]
    norm_num

/-- C3 witness: endpoints at a clip of 100 frames. -/
theorem c3_cursor_alpha_endpoints_witness :
    (40 : ℤ) < 100
      ∧ (Animation.calculate_cursor_alpha 0 100 = 0
          ∧ Animation.calculate_cursor_alpha 20 100 = 1
          ∧ Animation.calculate_cursor_alpha (100 - 1) 100 = 1 / 20) :=
  ⟨by norm_num, c3_cursor_alpha_endpoints 100 (by norm_num)⟩

/-- C9: for every frame index with 0 ≤ frame_idx < total_frames, the cursor
alpha multiplier lies in the closed interval [0, 1], so the sprite blend is a
convex combination of sprite and frame pixels. -/
theorem c9_cursor_alpha_bounds (frame_idx total_frames : ℤ)
    (h0 : 0 ≤ frame_idx) (h1 : frame_idx < total_frames) :
    0 ≤ Animation.calculate_cursor_alpha frame_idx total_frames
      ∧ Animation.calculate_cursor_alpha frame_idx total_frames ≤ 1 := by
  unfold Animation.calculate_cursor_alpha
  unfold Config.CURSOR_FADE_IN_FRAMES Config.CURSOR_FADE_OUT_FRAMES
  split_ifs with hfi hfo
  · constructor
    · apply div_nonneg _ (by norm_num)
      exact_mod_cast h0
    · rw [div_le_one (by norm_num)]
      exact_mod_cast le_of_lt hfi
  · constructor
    · apply div_nonneg _ (by norm_num)
      have : (0 : ℤ) ≤ total_frames - frame_idx := by omega
      exact_mod_cast this
    · rw [div_le_one (by norm_num)]
      have : total_frames - frame_idx ≤ 20 := by omega
      exact_mod_cast this
  · norm_num

namespace Animation

/-- src/animation.py create_single_reveal_animation.  The per-frame raster
work (reveal mask and cursor blend, lines 40-59) produces one frame per path
index and is abstracted by the parameter render_reveal_frame (it is NumPy
float raster code); the frame-list structure is modelled exactly:
`reveal_frames = int(reveal_duration * FPS)` rendered frames followed by
`hold_frames = int((total_duration - reveal_duration) * FPS)` copies of the
main image, where a Python range over a negative count runs zero times
(modelled by Int.toNat). -/
def create_single_reveal_animation {F : Type} (render_reveal_frame : ℕ → F)
    (main_image : F) (reveal_duration total_duration : ℚ) : List F :=
  let reveal_frames : ℤ := pyTrunc (reveal_duration * (Config.FPS : ℚ))
  let hold_frames : ℤ := pyTrunc ((total_duration - reveal_duration) * (Config.FPS : ℚ))
  (List.range reveal_frames.toNat).map render_reveal_frame
    ++ List.replicate hold_frames.toNat main_image

end Animation

/-- C1: the claim as stated is false on the code: frame counts use Python
`int()` truncation, not `round`.  At reveal_duration 1.99 s, total_duration
4 s, FPS 30 the code emits int(59.7) + int(60.3) = 59 + 60 = 119 frames, while
the claimed formula round(59.7) + max(0, round(60.3)) = 60 + 60 = 120. -/
theorem c1_counterexample :
    ((Animation.create_single_reveal_animation (fun _ => 0) (0 : ℕ)
        (199 / 100) 4).length : ℤ)
      ≠ round ((199 / 100 : ℚ) * (Config.FPS : ℚ))
          + max 0 (round (((4 : ℚ) - 199 / 100) * (Config.FPS : ℚ))) := by
  have hlen : ((Animation.create_single_reveal_animation (fun _ => 0) (0 : ℕ)
      (199 / 100) 4).length : ℤ) = 119 := by
    norm_num [Animation.create_single_reveal_animation, pyTrunc, Config.FPS]
  rw [hlen]
  norm_num [round_eq, Config.FPS]

/-- C1 (amended): for every reveal animation produced by
create_single_reveal_animation with 0 ≤ reveal_duration, the number of output
frames equals int(reveal_duration×FPS) + max(0, int((total_duration −
reveal_duration)×FPS)) where int is Python truncation toward zero; in
particular a negative hold-frame count contributes zero hold frames rather
than failing. -/
theorem c1_frame_count {F : Type} (render : ℕ → F) (main : F)
    (reveal_duration total_duration : ℚ) (h : 0 ≤ reveal_duration) :
    ((Animation.create_single_reveal_animation render main
        reveal_duration total_duration).length : ℤ)
      = pyTrunc (reveal_duration * (Config.FPS : ℚ))
          + max 0 (pyTrunc ((total_duration - reveal_duration) * (Config.FPS : ℚ))) := by
  have hnn : 0 ≤ reveal_duration * (Config.FPS : ℚ) := by
    apply mul_nonneg h
    norm_num [Config.FPS]
  have ha : 0 ≤ pyTrunc (reveal_duration * (Config.FPS : ℚ)) := by
    rw [pyTrunc_of_nonneg _ hnn]
    exact Int.floor_nonneg.mpr hnn
  simp only [Animation.create_single_reveal_animation, List.length_append,
    List.length_map, List.length_range, List.length_replicate]
  push_cast
  omega

/-- C1 witness: reveal 1.5 s of a 4 s total at FPS 30 gives 45 + 75 = 120
frames. -/
theorem c1_frame_count_witness :
    (0 : ℚ) ≤ 3 / 2
      ∧ (Animation.create_single_reveal_animation (fun _ => 0) (0 : ℕ)
          (3 / 2) 4).length = 120 := by
  refine ⟨by norm_num, ?_⟩
  have h := c1_frame_count (fun _ => 0) (0 : ℕ) (3 / 2) 4 (by norm_num)
  have h2 : pyTrunc ((3 / 2 : ℚ) * (Config.FPS : ℚ))
      + max 0 (pyTrunc (((4 : ℚ) - 3 / 2) * (Config.FPS : ℚ))) = 120 := by
    norm_num [pyTrunc, Config.FPS]
  omega

namespace PanZoom

/-- src/animation/pan_zoom_animation.py lines 54-59: the requested pan
distance, `int(height * pan_distance_ratio)` for vertical directions and
`int(width * pan_distance_ratio)` for horizontal ones. -/
def pan_requested (width height : ℤ) (pan_distance_ratio : ℚ)
    (direction : String) : ℤ :=
  if direction = "up" ∨ direction = "down" then
    pyTrunc ((height : ℚ) * pan_distance_ratio)
  else
    pyTrunc ((width : ℚ) * pan_distance_ratio)

/-- src/animation/pan_zoom_animation.py lines 36-59: room available on the
two sides of the centered crop along the pan axis.  `zoomed_* = int(img_* *
zoom_level)`, `center_* = (zoomed_* - *) // 2` (Python floor division). -/
def pan_max_available (width height img_width img_height : ℤ) (zoom_level : ℚ)
    (direction : String) : ℤ :=
  let zoomed_width := pyTrunc ((img_width : ℚ) * zoom_level)
  let zoomed_height := pyTrunc ((img_height : ℚ) * zoom_level)
  let center_x := (zoomed_width - width) / 2
  let center_y := (zoomed_height - height) / 2
  let avail_up := center_y
  let avail_down := zoomed_height - height - center_y
  let avail_left := center_x
  let avail_right := zoomed_width - width - center_x
  if direction = "up" ∨ direction = "down" then
    min avail_up avail_down
  else
    min avail_left avail_right

/-- src/animation/pan_zoom_animation.py lines 61-65: the actual pan distance:
`min(requested, max_available)`, replaced by `max(1, max_available)` when that
minimum is zero. -/
def pan_distance_pixels (width height img_width img_height : ℤ)
    (zoom_level pan_distance_ratio : ℚ) (direction : String) : ℤ :=
  let requested := pan_requested width height pan_distance_ratio direction
  let max_available := pan_max_available width height img_width img_height
    zoom_level direction
  let pan0 := min requested max_available
  if pan0 = 0 then max 1 max_available else pan0

end PanZoom

/-- C4: the claim as stated is false on the code: with a 405×720 canvas and
image, zoom 1.1 and pan_distance_ratio 0.001 going "down", the truncated
request int(720×0.001) = 0 makes the code pan max(1, 36) = 36 pixels, while
the claimed formula min(requested, min(avail_before, avail_after)) yields 0
(or 1 under a rounded reading of requested), and the available room 36 is not
zero so the claim's 1-pixel fallback does not apply. -/
theorem c4_counterexample :
    PanZoom.pan_distance_pixels 405 720 405 720 (11 / 10) (1 / 1000) "down" = 36
      ∧ min (pyTrunc ((720 : ℚ) * (1 / 1000)))
          (PanZoom.pan_max_available 405 720 405 720 (11 / 10) "down") = 0
      ∧ min (round ((720 : ℚ) * (1 / 1000)))
          (PanZoom.pan_max_available 405 720 405 720 (11 / 10) "down") = 1
      ∧ (36 : ℤ) ≠ 0 ∧ (36 : ℤ) ≠ 1 := by
  have hM : PanZoom.pan_max_available 405 720 405 720 (11 / 10) "down" = 36 := by
    norm_num [PanZoom.pan_max_available, pyTrunc]
  have hR : PanZoom.pan_requested 405 720 (1 / 1000) "down" = 0 := by
    norm_num [PanZoom.pan_requested, pyTrunc]
  refine ⟨?_, ?_, ?_, by norm_num, by norm_num⟩
  · unfold PanZoom.pan_distance_pixels
    rw [hM, hR]
    norm_num
  · rw [hM]
    norm_num [pyTrunc]
  · rw [hM]
    norm_num [round_eq]

/-- C4 (amended): for every direction, with nonnegative canvas dimensions and
pan ratio, the actual pan distance equals min(requested, min(avail_before,
avail_after)) with requested = int(pan_distance_ratio × (height or width))
whenever that minimum is nonzero; when it is zero the code pans
max(1, min(avail_before, avail_after)) — exactly 1 pixel whenever the minimum
available room is zero, and the full available room when the truncated
request alone is zero. -/
theorem c4_pan_distance (width height img_width img_height : ℤ)
    (zoom_level pan_distance_ratio : ℚ) (direction : String)
    (hw : 0 ≤ width) (hh : 0 ≤ height) (hr : 0 ≤ pan_distance_ratio) :
    (min (PanZoom.pan_requested width height pan_distance_ratio direction)
        (PanZoom.pan_max_available width height img_width img_height zoom_level direction) ≠ 0 →
      PanZoom.pan_distance_pixels width height img_width img_height
          zoom_level pan_distance_ratio direction
        = min (PanZoom.pan_requested width height pan_distance_ratio direction)
            (PanZoom.pan_max_available width height img_width img_height zoom_level direction))
    ∧ (min (PanZoom.pan_requested width height pan_distance_ratio direction)
        (PanZoom.pan_max_available width height img_width img_height zoom_level direction) = 0 →
      PanZoom.pan_distance_pixels width height img_width img_height
          zoom_level pan_distance_ratio direction
        = max 1 (PanZoom.pan_max_available width height img_width img_height zoom_level direction))
    ∧ (PanZoom.pan_max_available width height img_width img_height zoom_level direction = 0 →
      PanZoom.pan_distance_pixels width height img_width img_height
          zoom_level pan_distance_ratio direction = 1) := by
  have hreq : 0 ≤ PanZoom.pan_requested width height pan_distance_ratio direction := by
    unfold PanZoom.pan_requested
    split_ifs
    · rw [pyTrunc_of_nonneg _ (by positivity)]
      exact Int.floor_nonneg.mpr (by positivity)
    · rw [pyTrunc_of_nonneg _ (by positivity)]
      exact Int.floor_nonneg.mpr (by positivity)
  set R := PanZoom.pan_requested width height pan_distance_ratio direction with hRdef
  set M := PanZoom.pan_max_available width height img_width img_height
    zoom_level direction with hMdef
  have hpan : PanZoom.pan_distance_pixels width height img_width img_height
      zoom_level pan_distance_ratio direction
      = if min R M = 0 then max 1 M else min R M := rfl
  refine ⟨?_, ?_, ?_⟩
  · intro hne
    rw [hpan, if_neg hne]
  · intro hz
    rw [hpan, if_pos hz]
  · intro hM0
    rw [hpan, if_pos (by rw [hM0]; exact min_eq_right hreq), hM0]
    norm_num

/-- C4 witness: 405×720 canvas, zoom 1.1, ratio 0.15 going "down": request 108
is cut to the available 36 pixels. -/
theorem c4_pan_distance_witness :
    (0 : ℤ) ≤ 405 ∧ (0 : ℤ) ≤ 720 ∧ (0 : ℚ) ≤ 3 / 20
      ∧ PanZoom.pan_distance_pixels 405 720 405 720 (11 / 10) (3 / 20) "down" = 36 := by
  refine ⟨by norm_num, by norm_num, by norm_num, ?_⟩
  have h := (c4_pan_distance 405 720 405 720 (11 / 10) (3 / 20) "down"
    (by norm_num) (by norm_num) (by norm_num)).1
  have hM : PanZoom.pan_max_available 405 720 405 720 (11 / 10) "down" = 36 := by
    norm_num [PanZoom.pan_max_available, pyTrunc]
  have hR : PanZoom.pan_requested 405 720 (3 / 20) "down" = 108 := by
    norm_num [PanZoom.pan_requested, pyTrunc]
  rw [h (by rw [hM, hR]; norm_num), hM, hR]
  norm_num

/-- C9 witness: concrete frame 5 of a 100-frame clip. -/
theorem c9_cursor_alpha_bounds_witness :
    (0 : ℤ) ≤ 5 ∧ (5 : ℤ) < 100
      ∧ (0 ≤ Animation.calculate_cursor_alpha 5 100
          ∧ Animation.calculate_cursor_alpha 5 100 ≤ 1) :=
  ⟨by norm_num, by norm_num, c9_cursor_alpha_bounds 5 100 (by norm_num) (by norm_num)⟩

namespace Captions

/-- A caption segment (text, start_sec, end_sec) as in
src/captions/caption_overlay.py. -/
abbrev Segment : Type := String × ℚ × ℚ

/-- The segment-scan loop of _get_current_segment (caption_overlay.py lines
273-275): the first segment (with its enumerate index) whose half-open
interval [start, end) contains t_sec. -/
def find_current (t_sec : ℚ) : List Segment → ℕ → Option (String × ℕ × ℚ × ℚ)
  | [], _ => none
  | a :: rest, i =>
    if a.2.1 ≤ t_sec ∧ t_sec < a.2.2 then some (a.1, i, a.2.1, a.2.2)
    else find_current t_sec rest (i + 1)

/-- src/captions/caption_overlay.py _get_current_segment: returns
(full_text, current_text, current_index, start_sec, end_sec). -/
def get_current_segment (t_sec : ℚ) (segments : List Segment) :
    String × Option String × Option ℕ × Option ℚ × Option ℚ :=
  match segments with
  | [] => ("", none, none, none, none)
  | a :: rest =>
    let full_text := String.intercalate " " ((a :: rest).map Prod.fst)
    match find_current t_sec (a :: rest) 0 with
    | some (text, i, s, e) => (full_text, some text, some i, some s, some e)
    | none =>
      let last := (a :: rest).getLast (List.cons_ne_nil a rest)
      if last.2.2 ≤ t_sec then
        (full_text, some last.1, some rest.length, some last.2.1, some last.2.2)
      else (full_text, none, none, none, none)

/-- Time-ascending, non-overlapping segment list: each segment has
start ≤ end and each segment ends no later than the next one starts. -/
def segments_ordered : List Segment → Prop
  | [] => True
  | [a] => a.2.1 ≤ a.2.2
  | a :: b :: rest => a.2.1 ≤ a.2.2 ∧ a.2.2 ≤ b.2.1 ∧ segments_ordered (b :: rest)

theorem segments_ordered_tail {a : Segment} {l : List Segment}
    (h : segments_ordered (a :: l)) : segments_ordered l := by
  cases l with
  | nil => trivial
  | cons b r => exact h.2.2

theorem segments_ordered_head {a : Segment} {l : List Segment}
    (h : segments_ordered (a :: l)) : a.2.1 ≤ a.2.2 := by
  cases l with
  | nil => exact h
  | cons b r => exact h.1

theorem ordered_head_end_le {a b : Segment} {l : List Segment}
    (h : segments_ordered (a :: l)) (hb : b ∈ l) : a.2.2 ≤ b.2.1 := by
  induction l generalizing a with
  | nil => cases hb
  | cons c r ih =>
    have h1 : a.2.2 ≤ c.2.1 := h.2.1
    rcases List.mem_cons.mp hb with rfl | hb2
    · exact h1
    · have h2 : c.2.1 ≤ c.2.2 := segments_ordered_head (segments_ordered_tail h)
      have h3 : c.2.2 ≤ b.2.1 := ih (segments_ordered_tail h) hb2
      linarith

theorem ordered_mem_start_le_end {l : List Segment} {s : Segment}
    (h : segments_ordered l) (hs : s ∈ l) : s.2.1 ≤ s.2.2 := by
  induction l with
  | nil => cases hs
  | cons a r ih =>
    rcases List.mem_cons.mp hs with rfl | hs2
    · exact segments_ordered_head h
    · exact ih (segments_ordered_tail h) hs2

theorem ordered_head_start_le {a b : Segment} {l : List Segment}
    (h : segments_ordered (a :: l)) (hb : b ∈ a :: l) : a.2.1 ≤ b.2.1 := by
  rcases List.mem_cons.mp hb with rfl | hb2
  · exact le_refl _
  · exact le_trans (segments_ordered_head h) (ordered_head_end_le h hb2)

theorem ordered_before {l1 l2 : List Segment} {s b : Segment}
    (h : segments_ordered (l1 ++ l2)) (hs : s ∈ l1) (hb : b ∈ l2) :
    s.2.2 ≤ b.2.1 := by
  induction l1 with
  | nil => cases hs
  | cons x r ih =>
    rcases List.mem_cons.mp hs with rfl | hs2
    · exact ordered_head_end_le h (List.mem_append_right r hb)
    · exact ih (segments_ordered_tail h) hs2

theorem ordered_mem_end_le_getLast {l : List Segment} {s : Segment}
    (h : segments_ordered l) (hne : l ≠ []) (hs : s ∈ l) :
    s.2.2 ≤ (l.getLast hne).2.2 := by
  have hdec : l.dropLast ++ [l.getLast hne] = l := List.dropLast_append_getLast hne
  rcases (List.mem_append.mp (hdec ▸ hs)) with h1 | h1
  · have h2 : s.2.2 ≤ (l.getLast hne).2.1 := by
      refine @ordered_before l.dropLast [l.getLast hne] s (l.getLast hne)
        ?_ h1 (List.mem_singleton_self _)
      rw [hdec]
      exact h
    exact le_trans h2 (ordered_mem_start_le_end h (List.getLast_mem hne))
  · rw [List.mem_singleton.mp h1]

theorem find_current_none {t : ℚ} {l : List Segment}
    (h : ∀ s ∈ l, ¬(s.2.1 ≤ t ∧ t < s.2.2)) :
    ∀ i, find_current t l i = none := by
  induction l with
  | nil => intro i; rfl
  | cons a r ih =>
    intro i
    unfold find_current
    rw [if_neg (h a (List.mem_cons_self a r))]
    exact ih (fun s hs => h s (List.mem_cons_of_mem a hs)) (i + 1)

theorem find_current_get {t : ℚ} {l : List Segment} (hord : segments_ordered l) :
    ∀ j (hj : j < l.length), (l.get ⟨j, hj⟩).2.1 ≤ t → t < (l.get ⟨j, hj⟩).2.2 →
    ∀ i, find_current t l i
      = some ((l.get ⟨j, hj⟩).1, i + j, (l.get ⟨j, hj⟩).2.1, (l.get ⟨j, hj⟩).2.2) := by
  induction l with
  | nil => intro j hj; simp at hj
  | cons a r ih =>
    intro j hj h1 h2 i
    cases j with
    | zero =>
      unfold find_current
      rw [if_pos ⟨h1, h2⟩]
      simp
    | succ j' =>
      have hj' : j' < r.length := by simpa using hj
      have hget : (a :: r).get ⟨j' + 1, hj⟩ = r.get ⟨j', hj'⟩ := rfl
      rw [hget] at h1 h2 ⊢
      have hmem : r.get ⟨j', hj'⟩ ∈ r := r.get_mem j' hj'
      have hend : a.2.2 ≤ (r.get ⟨j', hj'⟩).2.1 := ordered_head_end_le hord hmem
      unfold find_current
      rw [if_neg (by push_neg; intro _; linarith)]
      rw [show i + (j' + 1) = (i + 1) + j' by omega]
      exact ih (segments_ordered_tail hord) j' hj' h1 h2 (i + 1)

end Captions

namespace Captions

theorem current_of_find_some {t : ℚ} {L : List Segment} {text : String}
    {i : ℕ} {s e : ℚ} (hfind : find_current t L 0 = some (text, i, s, e)) :
    (get_current_segment t L).2.1 = some text := by
  cases L with
  | nil => simp [find_current] at hfind
  | cons x xs => simp [get_current_segment, hfind]

theorem current_of_none_past {t : ℚ} {L : List Segment} (hne : L ≠ [])
    (hfind : find_current t L 0 = none) (hpast : (L.getLast hne).2.2 ≤ t) :
    (get_current_segment t L).2.1 = some (L.getLast hne).1 := by
  cases L with
  | nil => exact absurd rfl hne
  | cons x xs =>
    simp only [get_current_segment, hfind]
    rw [if_pos hpast]

theorem current_of_none_before {t : ℚ} {L : List Segment} (hne : L ≠ [])
    (hfind : find_current t L 0 = none)
    (hnotpast : ¬ (L.getLast hne).2.2 ≤ t) :
    (get_current_segment t L).2.1 = none := by
  cases L with
  | nil => exact absurd rfl hne
  | cons x xs =>
    simp only [get_current_segment, hfind]
    rw [if_neg hnotpast]

end Captions

/-- C5: caption current-segment lookup uses half-open, left-inclusive
intervals: for a time-ascending segment list, a time t inside a segment's
[start, end) resolves to that segment's text (so a shared boundary resolves to
the later segment); t at or past the last segment's end resolves to the last
segment's text (sticky); t before the first segment's start resolves to no
active text. -/
theorem c5_caption_lookup (segs : List Captions.Segment) (t : ℚ)
    (hord : Captions.segments_ordered segs) (hne : segs ≠ []) :
    (∀ i (hi : i < segs.length),
        (segs.get ⟨i, hi⟩).2.1 ≤ t → t < (segs.get ⟨i, hi⟩).2.2 →
        (Captions.get_current_segment t segs).2.1 = some (segs.get ⟨i, hi⟩).1)
      ∧ ((segs.getLast hne).2.2 ≤ t →
        (Captions.get_current_segment t segs).2.1 = some (segs.getLast hne).1)
      ∧ (t < (segs.head hne).2.1 →
        (Captions.get_current_segment t segs).2.1 = none) := by
  refine ⟨?_, ?_, ?_⟩
  · intro i hi h1 h2
    exact Captions.current_of_find_some (Captions.find_current_get hord i hi h1 h2 0)
  · intro hpast
    have hfind : Captions.find_current t segs 0 = none := by
      apply Captions.find_current_none
      intro s hs hcontra
      have h1 : s.2.2 ≤ (segs.getLast hne).2.2 :=
        Captions.ordered_mem_end_le_getLast hord hne hs
      have h2 : t < s.2.2 := hcontra.2
      linarith
    exact Captions.current_of_none_past hne hfind hpast
  · intro hfirst
    cases segs with
    | nil => exact absurd rfl hne
    | cons a rest =>
      have hfind : Captions.find_current t (a :: rest) 0 = none := by
        apply Captions.find_current_none
        intro s hs hcontra
        have h1 : a.2.1 ≤ s.2.1 := Captions.ordered_head_start_le hord hs
        have h2 : s.2.1 ≤ t := hcontra.1
        have h3 : t < a.2.1 := hfirst
        linarith
      apply Captions.current_of_none_before hne hfind
      push_neg
      have hlm : (a :: rest).getLast hne ∈ a :: rest := List.getLast_mem hne
      have h4 : a.2.1 ≤ ((a :: rest).getLast hne).2.1 :=
        Captions.ordered_head_start_le hord hlm
      have h5 : ((a :: rest).getLast hne).2.1 ≤ ((a :: rest).getLast hne).2.2 :=
        Captions.ordered_mem_start_le_end hord hlm
      have h6 : t < a.2.1 := hfirst
      linarith

/-- C5 witness: segments [("a",0,0.5), ("b",0.5,1.2)] at t = 0.5 resolve to
"b" (left-inclusive boundary). -/
theorem c5_caption_lookup_witness :
    (Captions.get_current_segment (1 / 2)
      [("a", (0 : ℚ), (1 / 2 : ℚ)), ("b", (1 / 2 : ℚ), (6 / 5 : ℚ))]).2.1 = some "b" := by
  have hord : Captions.segments_ordered
      [("a", (0 : ℚ), (1 / 2 : ℚ)), ("b", (1 / 2 : ℚ), (6 / 5 : ℚ))] := by
    simp only [Captions.segments_ordered]
    norm_num
  have h := (c5_caption_lookup
      [("a", (0 : ℚ), (1 / 2 : ℚ)), ("b", (1 / 2 : ℚ), (6 / 5 : ℚ))] (1 / 2)
      hord (by simp)).1 1 (by norm_num)
  simp only [List.get] at h
  exact h (by norm_num) (by norm_num)

namespace Captions

/-- src/captions/caption_overlay.py overlay_captions_on_frame over an
abstract frame type F.  The Pillow rendering (font loading, highlight color,
pop scaling, text drawing and the BGR write-back, lines 342-407) is
abstracted by the parameter draw_text, which receives the frame, the current
text, t_sec and the segment timings; the control flow deciding whether
anything is drawn is modelled exactly: an empty segment list, show_emphasized
False, or a falsy current_text (None or the empty string) return the frame
unchanged. -/
def overlay_captions_on_frame {F : Type}
    (draw_text : F → String → ℚ → Option ℚ → Option ℚ → F)
    (frame : F) (t_sec : ℚ) (segments : List Segment)
    (show_emphasized : Bool) : F :=
  if segments = [] then frame
  else if show_emphasized = false then frame
  else
    let res := get_current_segment t_sec segments
    match res.2.1 with
    | none => frame
    | some text =>
      if text = "" then frame
      else draw_text frame text t_sec res.2.2.2.1 res.2.2.2.2

end Captions

/-- C10: for a time-ascending, non-overlapping segment list containing a gap —
a time t with some segment's end ≤ t, t < the next segment's start, and t <
the last segment's end — the lookup returns no active segment and
overlay_captions_on_frame leaves the frame unchanged (no text drawn during
gaps). -/
theorem c10_gap_no_draw {F : Type}
    (draw_text : F → String → ℚ → Option ℚ → Option ℚ → F)
    (frame : F) (t : ℚ) (l1 l2 : List Captions.Segment)
    (a b : Captions.Segment) (sh : Bool)
    (hord : Captions.segments_ordered (l1 ++ a :: b :: l2))
    (hga : a.2.2 ≤ t) (hgb : t < b.2.1)
    (hlast : t < ((l1 ++ a :: b :: l2).getLast (by simp)).2.2) :
    (Captions.get_current_segment t (l1 ++ a :: b :: l2)).2.1 = none
      ∧ Captions.overlay_captions_on_frame draw_text frame t
          (l1 ++ a :: b :: l2) sh = frame := by
  have hmema : a ∈ l1 ++ a :: b :: l2 := by simp
  have hmemb : b ∈ l1 ++ a :: b :: l2 := by simp
  have hnomatch : ∀ s ∈ l1 ++ a :: b :: l2, ¬(s.2.1 ≤ t ∧ t < s.2.2) := by
    intro s hs hcontra
    rcases List.mem_append.mp hs with hsl1 | hsc
    · have h1 : s.2.2 ≤ a.2.1 :=
        Captions.ordered_before hord hsl1 (by simp)
      have h2 : a.2.1 ≤ a.2.2 := Captions.ordered_mem_start_le_end hord hmema
      have h3 : t < s.2.2 := hcontra.2
      linarith
    · rcases List.mem_cons.mp hsc with rfl | hsc2
      · exact absurd hcontra.2 (not_lt.mpr hga)
      rcases List.mem_cons.mp hsc2 with rfl | hsl2
      · exact absurd hcontra.1 (not_le.mpr hgb)
      · have hre : (l1 ++ [a, b]) ++ l2 = l1 ++ a :: b :: l2 := by simp
        have hord2 : Captions.segments_ordered ((l1 ++ [a, b]) ++ l2) := by
          rw [hre]; exact hord
        have h1 : b.2.2 ≤ s.2.1 :=
          Captions.ordered_before hord2 (by simp) hsl2
        have h2 : b.2.1 ≤ b.2.2 := Captions.ordered_mem_start_le_end hord hmemb
        have h3 : s.2.1 ≤ t := hcontra.1
        linarith
  have hfind := Captions.find_current_none hnomatch 0
  have hne : l1 ++ a :: b :: l2 ≠ [] := by simp
  have hcur : (Captions.get_current_segment t (l1 ++ a :: b :: l2)).2.1 = none :=
    Captions.current_of_none_before hne hfind (not_le.mpr hlast)
  refine ⟨hcur, ?_⟩
  unfold Captions.overlay_captions_on_frame
  rw [if_neg hne]
  cases sh with
  | false => rw [if_pos rfl]
  | true =>
    rw [if_neg (by simp)]
    simp only [hcur]

/-- C10 witness: gap between ("a",0,1) and ("b",2,3) at t = 1.5: nothing is
drawn and the frame (modelled as a counter) is unchanged. -/
theorem c10_gap_no_draw_witness :
    (Captions.get_current_segment (3 / 2)
        ([] ++ ("a", (0 : ℚ), (1 : ℚ)) :: ("b", (2 : ℚ), (3 : ℚ)) :: [])).2.1 = none
      ∧ Captions.overlay_captions_on_frame (fun f _ _ _ _ => f + 1) (0 : ℕ) (3 / 2)
          ([] ++ ("a", (0 : ℚ), (1 : ℚ)) :: ("b", (2 : ℚ), (3 : ℚ)) :: []) true = 0 := by
  have hord : Captions.segments_ordered
      ([] ++ ("a", (0 : ℚ), (1 : ℚ)) :: ("b", (2 : ℚ), (3 : ℚ)) :: []) := by
    simp only [List.nil_append, Captions.segments_ordered]
    norm_num
  exact c10_gap_no_draw (fun f _ _ _ _ => f + 1) (0 : ℕ) (3 / 2) [] []
    ("a", (0 : ℚ), (1 : ℚ)) ("b", (2 : ℚ), (3 : ℚ)) true hord
    (by norm_num) (by norm_num) (by norm_num [List.getLast])

namespace Captions

/-- Python whitespace characters stripped by str.strip() (ASCII subset). -/
def pyIsSpace (c : Char) : Bool :=
  c == ' ' || c == '\t' || c == '\n' || c == '\r' || c == '\x0b' || c == '\x0c'

/-- Python `s.strip() == ""`: true iff every character of s is whitespace
(in particular true for the empty string). -/
def strip_empty (s : String) : Bool := s.toList.all pyIsSpace

/-- One alignment entry: (array index, character string, start_sec, end_sec). -/
abbrev AlignItem : Type := ℕ × String × ℚ × ℚ

/-- An alignment entry the grouping loop treats as whitespace
(`characters[i].strip() == ""`). -/
def ws_item (it : AlignItem) : Bool := strip_empty it.2.1

/-- The indexed zip of the three alignment arrays. -/
def align_items (characters : List String) (starts ends : List ℚ) :
    List AlignItem :=
  (List.range characters.length).zip (characters.zip (starts.zip ends))

/-- caption_overlay.py lines 117-131: build one (word, start, end) segment
from a run of consecutive non-whitespace entries.  word is the concatenation
of the run's character strings, or the slice text[start_idx : end_idx + 1]
when use_text; the `if word:` guard drops an empty word. -/
def seg_of_run (use_text : Bool) (tx : List Char) (run : List AlignItem) :
    Option (String × ℚ × ℚ) :=
  match run with
  | [] => none
  | x :: xs =>
    let lastItem := (x :: xs).getLast (List.cons_ne_nil x xs)
    let start_idx := x.1
    let end_idx := lastItem.1
    let word :=
      if use_text then String.mk ((tx.drop start_idx).take (end_idx + 1 - start_idx))
      else String.join ((x :: xs).map (fun it => it.2.1))
    if word = "" then none
    else some (word, x.2.2.1, lastItem.2.2.2)

/-- The outer while-loop of alignment_to_word_segments (lines 111-122): skip
whitespace entries, then collect the maximal run of non-whitespace entries,
and repeat on the remainder. -/
def word_groups : List AlignItem → List (List AlignItem)
  | [] => []
  | x :: rest =>
    if ws_item x then word_groups rest
    else (x :: rest.takeWhile (fun y => ! ws_item y)) ::
      word_groups (rest.dropWhile (fun y => ! ws_item y))
termination_by l => l.length
decreasing_by
  · simp only [List.length_cons]
    omega
  · simp only [List.length_cons]
    exact Nat.lt_succ_of_le (List.IsSuffix.length_le (List.dropWhile_suffix _))

/-- src/captions/caption_overlay.py alignment_to_word_segments: convert
character alignment arrays to word-level segments.  n = 0 returns [];
mismatched array lengths raise ValueError (Except.error); text (modelled as a
character list) relabels words only when its length equals n. -/
def alignment_to_word_segments (characters : List String)
    (character_start_times_seconds character_end_times_seconds : List ℚ)
    (text : Option (List Char)) : Except String (List (String × ℚ × ℚ)) :=
  let n := characters.length
  if n = 0 then .ok []
  else if character_start_times_seconds.length ≠ n
      ∨ character_end_times_seconds.length ≠ n then
    .error "alignment arrays must have same length"
  else
    let use_text := match text with
      | some tx => decide (tx.length = n)
      | none => false
    let tx := text.getD []
    let items := align_items characters
      character_start_times_seconds character_end_times_seconds
    .ok ((word_groups items).filterMap (seg_of_run use_text tx))

/-- The specification's description of the grouping (used as the refinement
reference): split the indexed character array into chunks at whitespace
entries (List.splitOnP drops the separators), keep only the nonempty chunks —
the maximal whitespace-free runs — and emit one segment per run via
seg_of_run (concatenated text or matching-length full-text slice, first
entry's start, last entry's end). -/
def word_segments_spec (characters : List String) (starts ends : List ℚ)
    (text : Option (List Char)) : List (String × ℚ × ℚ) :=
  let n := characters.length
  let use_text := match text with
    | some tx => decide (tx.length = n)
    | none => false
  let tx := text.getD []
  let items := align_items characters starts ends
  ((items.splitOnP ws_item).filter (fun r => ! r.isEmpty)).filterMap
    (seg_of_run use_text tx)

theorem dropWhile_head_false {α : Type} (p : α → Bool) :
    ∀ (l : List α) (sep : α) (tl : List α),
      l.dropWhile p = sep :: tl → p sep = false := by
  intro l
  induction l with
  | nil =>
    intro sep tl h
    simp [List.dropWhile] at h
  | cons a as ih =>
    intro sep tl h
    rw [List.dropWhile_cons] at h
    by_cases ha : p a = true
    · rw [if_pos ha] at h
      exact ih sep tl h
    · rw [if_neg ha] at h
      injection h with h1 _
      rw [← h1]
      simpa using ha

theorem splitOnP_structure {α : Type} (p : α → Bool) (l : List α) :
    l.splitOnP p
      = if (l.dropWhile (fun a => ! p a)).isEmpty then [l.takeWhile (fun a => ! p a)]
        else l.takeWhile (fun a => ! p a)
              :: (l.dropWhile (fun a => ! p a)).tail.splitOnP p := by
  split_ifs with hd
  · have hnil : l.dropWhile (fun a => ! p a) = [] := by
      simpa [List.isEmpty_iff] using hd
    have hall : ∀ x ∈ l, (! p x) = true := List.dropWhile_eq_nil_iff.mp hnil
    have htake : l.takeWhile (fun a => ! p a) = l :=
      List.takeWhile_eq_self_iff.mpr hall
    rw [htake]
    apply List.splitOnP_eq_single
    intro x hx
    simpa using hall x hx
  · have hne : l.dropWhile (fun a => ! p a) ≠ [] := by
      intro hcontra
      rw [hcontra] at hd
      exact hd rfl
    obtain ⟨sep, tl, hsep⟩ : ∃ sep tl, l.dropWhile (fun a => ! p a) = sep :: tl := by
      cases hcase : l.dropWhile (fun a => ! p a) with
      | nil => exact absurd hcase hne
      | cons a b => exact ⟨a, b, rfl⟩
    have hpsep : p sep = true := by
      have h := dropWhile_head_false (fun a => ! p a) l sep tl hsep
      simpa using h
    have hmem : ∀ x ∈ l.takeWhile (fun a => ! p a), ¬ p x := by
      intro x hx
      simpa using List.mem_takeWhile_imp hx
    conv_lhs => rw [← List.takeWhile_append_dropWhile (fun a => ! p a) l, hsep]
    rw [List.splitOnP_first p _ hmem sep hpsep tl, hsep]
    rfl

theorem word_groups_eq_splitOnP (l : List AlignItem) :
    word_groups l = (l.splitOnP ws_item).filter (fun r => ! r.isEmpty) := by
  induction l using word_groups.induct with
  | case1 => simp [word_groups, List.splitOnP_nil]
  | case2 x rest hws ih =>
    rw [List.splitOnP_cons, if_pos hws]
    rw [show word_groups (x :: rest) = word_groups rest from by
      rw [word_groups, if_pos hws]]
    simpa using ih
  | case3 x rest hws ih =>
    have hlhs : word_groups (x :: rest)
        = (x :: rest.takeWhile (fun y => ! ws_item y))
            :: word_groups (rest.dropWhile (fun y => ! ws_item y)) := by
      rw [word_groups, if_neg hws]
    rw [hlhs, List.splitOnP_cons, if_neg hws, splitOnP_structure ws_item rest]
    by_cases hd : (rest.dropWhile (fun a => ! ws_item a)).isEmpty
    · have hnil : rest.dropWhile (fun a => ! ws_item a) = [] := by
        simpa [List.isEmpty_iff] using hd
      rw [if_pos hd, hnil]
      simp [word_groups, List.splitOnP_nil]
    · have hne : rest.dropWhile (fun a => ! ws_item a) ≠ [] := by
        intro hcontra
        rw [hcontra] at hd
        exact hd rfl
      rw [if_neg hd]
      obtain ⟨sep, tl, hsep⟩ : ∃ sep tl,
          rest.dropWhile (fun a => ! ws_item a) = sep :: tl := by
        cases hcase : rest.dropWhile (fun a => ! ws_item a) with
        | nil => exact absurd hcase hne
        | cons a b => exact ⟨a, b, rfl⟩
      have hwsep : ws_item sep = true := by
        have h := dropWhile_head_false (fun a => ! ws_item a) rest sep tl hsep
        simpa using h
      rw [hsep] at ih ⊢
      have ihtl : word_groups tl
          = (tl.splitOnP ws_item).filter (fun r => ! r.isEmpty) := by
        rw [show word_groups (sep :: tl) = word_groups tl from by
          rw [word_groups, if_pos hwsep]] at ih
        rw [ih, List.splitOnP_cons, if_pos hwsep]
        simp [List.filter_cons]
      rw [show word_groups (sep :: tl) = word_groups tl from by
        rw [word_groups, if_pos hwsep]]
      rw [ihtl, List.tail_cons]
      simp [List.filter_cons]

end Captions

/-- C6: alignment_to_word_segments groups the character array into word
segments by maximal runs of non-whitespace characters; it refines
word_segments_spec, the specification's splitting: chunks split at whitespace
entries with the separators dropped and empty chunks discarded, one segment
per run via seg_of_run (concatenated run text or matching-length full-text
slice, first character's start, last character's end). -/
theorem c6_alignment_to_word_segments (characters : List String)
    (starts ends : List ℚ) (text : Option (List Char))
    (hs : starts.length = characters.length)
    (he : ends.length = characters.length) :
    Captions.alignment_to_word_segments characters starts ends text
      = .ok (Captions.word_segments_spec characters starts ends text) := by
  simp only [Captions.alignment_to_word_segments, Captions.word_segments_spec]
  by_cases hn : characters.length = 0
  · rw [if_pos hn]
    have hc : characters = [] := List.length_eq_zero.mp hn
    subst hc
    simp [Captions.align_items, List.splitOnP_nil]
  · rw [if_neg hn, if_neg (by push_neg; exact ⟨hs, he⟩)]
    rw [Captions.word_groups_eq_splitOnP]

/-- C6 witness: characters ["h","i"," ","y","o","u"] with integer times group
into ("hi", 0, 2) and ("you", 3, 6), skipping the whitespace character. -/
theorem c6_alignment_to_word_segments_witness :
    List.length ([0, 1, 2, 3, 4, 5] : List ℚ)
        = List.length ["h", "i", " ", "y", "o", "u"]
      ∧ List.length ([1, 2, 3, 4, 5, 6] : List ℚ)
        = List.length ["h", "i", " ", "y", "o", "u"]
      ∧ Captions.alignment_to_word_segments ["h", "i", " ", "y", "o", "u"]
          [0, 1, 2, 3, 4, 5] [1, 2, 3, 4, 5, 6] none
        = .ok (Captions.word_segments_spec ["h", "i", " ", "y", "o", "u"]
            [0, 1, 2, 3, 4, 5] [1, 2, 3, 4, 5, 6] none)
      ∧ Captions.word_segments_spec ["h", "i", " ", "y", "o", "u"]
          [0, 1, 2, 3, 4, 5] [1, 2, 3, 4, 5, 6] none
        = [("hi", (0 : ℚ), (2 : ℚ)), ("you", (3 : ℚ), (6 : ℚ))] :=
  ⟨rfl, rfl,
   c6_alignment_to_word_segments ["h", "i", " ", "y", "o", "u"]
     [0, 1, 2, 3, 4, 5] [1, 2, 3, 4, 5, 6] none rfl rfl,
   rfl⟩

namespace VideoWriter

/-- File-system state for the audio-mux step: an association list mapping a
path to the id of the file content stored there. -/
def FS : Type := List (String × ℕ)

/-- Content stored at a path, if any. -/
def fs_get (fs : FS) (p : String) : Option ℕ := List.lookup p fs

/-- Delete a path (no-op when absent); models Path.unlink. -/
def fs_remove (fs : FS) (p : String) : FS :=
  List.filter (fun e => ! (e.1 == p)) fs

/-- Write content c at path p, replacing what was there. -/
def fs_set (fs : FS) (p : String) (c : ℕ) : FS := (p, c) :: fs_remove fs p

/-- Path.exists(). -/
def fs_exists (fs : FS) (p : String) : Bool := (fs_get fs p).isSome

/-- Path.rename: moves the file at src to dst (overwriting dst, POSIX
semantics); none models the FileNotFoundError raised when src is missing. -/
def fs_rename (fs : FS) (src dst : String) : Option FS :=
  match fs_get fs src with
  | none => none
  | some c => some (fs_set (fs_remove fs src) dst c)

/-- Outcome of the external ffmpeg mux run by match_video_to_audio_length:
either the muxed content id, or a failure that may have left a partial file
(Option content id) at the output path. -/
inductive MuxOutcome : Type where
  | success : ℕ → MuxOutcome
  | failure : Option ℕ → MuxOutcome

/-- src/audio/audio_utils.py match_video_to_audio_length restricted to its
file-system effect: on success the muxed video is written at output_path and
the input is left in place; on failure (ffmpeg error, modelled by the
failure outcome) an exception propagates, with at most a partial file left
at output_path.  The error constructor carries the file-system state at
raise time. -/
def match_video_to_audio_length (fs : FS) (output_path : String)
    (out : MuxOutcome) : Except (String × FS) (FS × String) :=
  match out with
  | .success c => .ok (fs_set fs output_path c, output_path)
  | .failure part =>
    .error ("mux failed",
      match part with
      | some c => fs_set fs output_path c
      | none => fs)

/-- video_writer.py line 480: `f"{video_path.stem}_no_audio{video_path.suffix}"`. -/
def mk_no_audio_path (stem suffix : String) : String :=
  stem ++ "_no_audio" ++ suffix

/-- src/video_writer.py _add_audio_to_video, with the original video path
given as stem ++ suffix: rename the original aside to the _no_audio temp
path, mux audio into a new file at the original path, unlink the temp on
success; on mux failure rename the temp back to the original path and
re-raise.  Errors carry the file-system state when the exception leaves the
function. -/
def add_audio_to_video (fs : FS) (stem suffix : String) (out : MuxOutcome) :
    Except (String × FS) (FS × String) :=
  let video_path := stem ++ suffix
  let temp_video := mk_no_audio_path stem suffix
  match fs_rename fs video_path temp_video with
  | none => .error ("original video not found", fs)
  | some fs1 =>
    match match_video_to_audio_length fs1 video_path out with
    | .ok (fs2, final_video) =>
      let fs3 := if fs_exists fs2 temp_video then fs_remove fs2 temp_video else fs2
      .ok (fs3, final_video)
    | .error (e, fs2) =>
      let fs3 := match fs_rename fs2 temp_video video_path with
        | some fs' => fs'
        | none => fs2
      .error (e, fs3)

theorem fs_get_set_self (fs : FS) (p : String) (c : ℕ) :
    fs_get (fs_set fs p c) p = some c := by
  simp [fs_get, fs_set, List.lookup]

theorem fs_get_remove_self (fs : FS) (p : String) :
    fs_get (fs_remove fs p) p = none := by
  induction fs with
  | nil => rfl
  | cons e t ih =>
    by_cases he : e.1 = p
    · simpa [fs_get, fs_remove, List.filter, he] using ih
    · have hbeq : (e.1 == p) = false := by simpa using he
      simp only [fs_get, fs_remove, List.filter, hbeq, Bool.not_false]
      rw [show List.lookup p ((e.1, e.2) :: List.filter (fun e => ! (e.1 == p)) t)
          = List.lookup p (List.filter (fun e => ! (e.1 == p)) t) from ?_]
      · exact ih
      · simp [List.lookup, show (p == e.1) = false by simpa using Ne.symm he]

theorem fs_get_remove_ne (fs : FS) (p q : String) (h : q ≠ p) :
    fs_get (fs_remove fs p) q = fs_get fs q := by
  induction fs with
  | nil => rfl
  | cons e t ih =>
    by_cases he : e.1 = p
    · have hbeq : (e.1 == p) = true := by simpa using he
      have hqe : (q == e.1) = false := by
        simp only [beq_eq_false_iff_ne, ne_eq]
        intro hcontra
        exact h (hcontra.trans he)
      simp only [fs_remove, List.filter, hbeq, Bool.not_true]
      rw [show fs_get (e :: t) q = fs_get t q from ?_]
      · exact ih
      · simp [fs_get, List.lookup, hqe]
    · have hbeq : (e.1 == p) = false := by simpa using he
      simp only [fs_remove, List.filter, hbeq, Bool.not_false]
      by_cases hqe : q = e.1
      · simp [fs_get, List.lookup, show (q == e.1) = true by simpa using hqe]
      · have hqe2 : (q == e.1) = false := by simpa using hqe
        simp only [fs_get, List.lookup, hqe2]
        exact ih

theorem fs_get_set_ne (fs : FS) (p q : String) (c : ℕ) (h : q ≠ p) :
    fs_get (fs_set fs p c) q = fs_get fs q := by
  have hq : (q == p) = false := by simpa using h
  simp only [fs_set, fs_get, List.lookup, hq]
  exact fs_get_remove_ne fs p q h

theorem mk_no_audio_path_ne (stem suffix : String) :
    mk_no_audio_path stem suffix ≠ stem ++ suffix := by
  intro h
  have hlen := congrArg String.length h
  simp only [mk_no_audio_path, String.length_append] at hlen
  have h9 : ("_no_audio" : String).length = 9 := rfl
  omega

end VideoWriter

/-- C8: if the mux step fails after the original video (content orig at path
stem ++ suffix) has been renamed aside, _add_audio_to_video restores the
original content at the original path before the error is surfaced, and the
temp _no_audio path is gone: exactly one playable video remains at the
original filename, never zero — even if the failed mux left a partial file
there. -/
theorem c8_mux_rollback (fs : VideoWriter.FS) (stem suffix : String)
    (orig : ℕ) (part : Option ℕ)
    (hv : VideoWriter.fs_get fs (stem ++ suffix) = some orig) :
    ∃ e fs3,
      VideoWriter.add_audio_to_video fs stem suffix (.failure part)
          = .error (e, fs3)
        ∧ VideoWriter.fs_get fs3 (stem ++ suffix) = some orig
        ∧ VideoWriter.fs_get fs3 (VideoWriter.mk_no_audio_path stem suffix) = none := by
  set video_path := stem ++ suffix with hvp
  set temp_video := VideoWriter.mk_no_audio_path stem suffix with htv
  have hne : temp_video ≠ video_path := VideoWriter.mk_no_audio_path_ne stem suffix
  set fs1 := VideoWriter.fs_set (VideoWriter.fs_remove fs video_path) temp_video orig
    with hfs1
  have hrename1 : VideoWriter.fs_rename fs video_path temp_video = some fs1 := by
    simp [VideoWriter.fs_rename, hv]
  set fs2 := (match part with
    | some c => VideoWriter.fs_set fs1 video_path c
    | none => fs1) with hfs2
  have htemp2 : VideoWriter.fs_get fs2 temp_video = some orig := by
    rw [hfs2]
    cases part with
    | none => exact VideoWriter.fs_get_set_self _ _ _
    | some c =>
      rw [VideoWriter.fs_get_set_ne _ _ _ _ hne]
      exact VideoWriter.fs_get_set_self _ _ _
  set fs3 := VideoWriter.fs_set (VideoWriter.fs_remove fs2 temp_video) video_path orig
    with hfs3
  have hrename2 : VideoWriter.fs_rename fs2 temp_video video_path = some fs3 := by
    simp [VideoWriter.fs_rename, htemp2]
  refine ⟨"mux failed", fs3, ?_, ?_, ?_⟩
  · simp only [VideoWriter.add_audio_to_video, hrename1]
    simp only [VideoWriter.match_video_to_audio_length]
    rw [← hfs2]
    simp only [hrename2]
  · rw [hfs3]
    exact VideoWriter.fs_get_set_self _ _ _
  · rw [hfs3]
    rw [VideoWriter.fs_get_set_ne _ _ _ _ hne]
    exact VideoWriter.fs_get_remove_self _ _

/-- C8 witness: concrete mux failure over the file system
[("out.mp4", 7)] with a partial file written by the failed mux. -/
theorem c8_mux_rollback_witness :
    VideoWriter.fs_get [("out.mp4", 7)] ("out" ++ ".mp4") = some 7
      ∧ ∃ e fs3,
        VideoWriter.add_audio_to_video [("out.mp4", 7)] "out" ".mp4"
            (.failure (some 9)) = .error (e, fs3)
          ∧ VideoWriter.fs_get fs3 ("out" ++ ".mp4") = some 7
          ∧ VideoWriter.fs_get fs3 (VideoWriter.mk_no_audio_path "out" ".mp4") = none :=
  ⟨by rfl, c8_mux_rollback [("out.mp4", 7)] "out" ".mp4" 7 (some 9) (by rfl)⟩

namespace PathGen

/-- Python int() on a float: truncation toward zero (used for the final
cursor coordinates, which may be negative near the start offset). -/
def pyIntOfFloat (x : Float) : Int :=
  if x ≥ 0 then Int.ofNat x.toUInt64.toNat
  else - Int.ofNat (-x).toUInt64.toNat

/-- One step of the model of numpy's global pseudo-random generator (the
exact Mersenne Twister stream is not reproduced; the determinism claim only
needs the stream to be a pure function of the seeded state). -/
def np_next (s : Nat) : Nat :=
  (6364136223846793005 * s + 1442695040888963407) % 18446744073709551616

/-- Model of np.random.uniform(lo, hi, n) drawing from the global state:
returns the n samples and the advanced state. -/
def np_uniform_list (lo hi : Float) : Nat → Nat → List Float × Nat
  | 0, s => ([], s)
  | n + 1, s =>
    let s1 := np_next s
    let x := lo + (hi - lo) * (Float.ofNat (s1 % 1000000) / 1000000)
    let (rest, s2) := np_uniform_list lo hi n s1
    (x :: rest, s2)

/-- Full discrete convolution: full[k] = Σ a[j]·v[k−j] over valid j. -/
def convolve_full (a v : List Float) : List Float :=
  (List.range (a.length + v.length - 1)).map (fun k =>
    ((List.range (k + 1)).filterMap (fun j =>
      match a.get? j, v.get? (k - j) with
      | some aj, some vkj => some (aj * vkj)
      | _, _ => none)).foldl (· + ·) 0)

/-- np.convolve(a, v, mode="same"): the centered max(len a, len v) slice of
the full convolution. -/
def convolve_same (a v : List Float) : List Float :=
  ((convolve_full a v).drop ((min a.length v.length - 1) / 2)).take
    (max a.length v.length)

/-- np.ones(n)/n. -/
def ones_over (n : Nat) : List Float := List.replicate n (1.0 / Float.ofNat n)

def npPi : Float := 3.141592653589793

/-- src/animation/path_generator.py generate_diagonal_zigzag_path, threaded
through the ambient numpy RNG state np_state (a Nat).  The function first
executes np.random.seed(42), overwriting whatever state was in effect, then
pre-generates the smoothed amplitude variations and maps every frame index to
an (x, y) cursor position; it returns the path together with the RNG state
left behind.  Float mirrors the NumPy double arithmetic. -/
def generate_diagonal_zigzag_path (np_state : Nat) (width height : Nat)
    (amplitude angle_deg reveal_duration fps : Float) :
    List (Int × Int) × Nat :=
  let total_frames := (reveal_duration * fps).toUInt64.toNat
  let angle_rad := angle_deg * npPi / 180
  let dx := Float.cos angle_rad
  let dy := Float.sin angle_rad
  let wf := Float.ofNat width
  let hf := Float.ofNat height
  let diagonal_length := Float.sqrt (wf * wf + hf * hf) * 1.5
  let start_x : Float := -200
  let start_y : Float := -200
  let state1 : Nat := 42
  let sampled := np_uniform_list 0.8 1.2 total_frames state1
  let window : Nat := 15
  let amplitude_variations := convolve_same sampled.1 (ones_over window)
  let path := (List.range total_frames).map (fun frame =>
    let linear_progress := Float.ofNat frame / Float.ofNat total_frames
    let progress := linear_progress * linear_progress * (3 - 2 * linear_progress)
    let dist_along_diagonal := progress * diagonal_length
    let base_x := start_x + dist_along_diagonal * dx
    let base_y := start_y + dist_along_diagonal * dy
    let perp_x := -dy
    let perp_y := dx
    let frequency : Float := 4
    let amplitude_variation := amplitude * (amplitude_variations.getD frame 0)
    let zig_offset := amplitude_variation * Float.sin (frequency * progress * 2 * npPi)
    let pos_x := base_x + zig_offset * perp_x
    let pos_y := base_y + zig_offset * perp_y
    (pyIntOfFloat pos_x, pyIntOfFloat pos_y))
  (path, sampled.2)

end PathGen

/-- C2: generate_diagonal_zigzag_path is deterministic: two calls with
identical arguments (width, height, amplitude, angle_deg, reveal_duration,
fps) return identical position sequences, whatever the ambient numpy RNG
states before the two calls were — the function overwrites the state with
the fixed seed 42 before drawing its per-frame amplitude jitter. -/
theorem c2_path_deterministic (s1 s2 : Nat) (width height : Nat)
    (amplitude angle_deg reveal_duration fps : Float) :
    (PathGen.generate_diagonal_zigzag_path s1 width height amplitude angle_deg
        reveal_duration fps).1
      = (PathGen.generate_diagonal_zigzag_path s2 width height amplitude angle_deg
        reveal_duration fps).1 := rfl
